import Mathlib

/-!
Verification of the parquet-generator writer core (`write_time_tags` in
`src/main.rs`).

The Rust function consumes a vector of `NormalizedTimeTag` records, buffers
them into two parallel column-array builders, flushes a row-group into the
currently open parquet file whenever the buffered row count reaches
`max_chunk_rows`, rotates to a freshly named file once the per-file chunk
counter strictly exceeds `max_chunk_count = max_file_rows / max_chunk_rows`,
and on input exhaustion performs one final flush of any partial chunk before
closing the last file.

The embedding below mirrors that loop with explicit state passing.  A parquet
file is observed as the list of row-groups it received together with the
`total_files` counter value it was created with (which determines its name);
machine integers (`u16`, `u64`, `usize`) are modelled as `Nat`, which is exact
here because the loop only ever increments small counters and the record
payloads are opaque data.
-/

/-- Event record `NormalizedTimeTag` (src/main.rs, lines 38-43); the `u16`
channel and `u64` picosecond time tag are modelled as `Nat`. -/
structure NormalizedTimeTag where
  channel_id : Nat
  time_tag_ps : Nat
deriving Repr, DecidableEq

/-- One row-group as written by `arrow_writer.write(&batch)`: the two finished
column arrays, in schema order `channel`, `time_tag`. -/
structure RowGroup where
  channel : List Nat
  time_tag : List Nat
deriving Repr, DecidableEq

/-- One produced parquet file: the `total_files` counter value at its creation
(used as the 4-digit sequence number of its name) and the row-groups written
into it, in order. -/
structure FileOut where
  seq : Nat
  chunks : List RowGroup
deriving Repr, DecidableEq

/-- The mutable state of the loop of `write_time_tags` (src/main.rs, lines
68-113): files already closed by rotation, the `total_files` counter, the
row-groups written into the currently open file, the two column-array
builders, `array_length` and `chunk_count`. -/
structure LoopState where
  closed_files : List FileOut
  total_files : Nat
  current_chunks : List RowGroup
  channel_array_builder : List Nat
  time_tag_array_builder : List Nat
  array_length : Nat
  chunk_count : Nat
deriving Repr, DecidableEq

/-- State right after the initial file is created (src/main.rs, lines 68-76):
`total_files = 1`, empty builders, zero counters. -/
def initState : LoopState :=
  { closed_files := []
    total_files := 1
    current_chunks := []
    channel_array_builder := []
    time_tag_array_builder := []
    array_length := 0
    chunk_count := 0 }

/-- One iteration of `for event in time_tags` (src/main.rs, lines 83-113):
append the record to the builders and bump `array_length`; if
`array_length >= max_chunk_rows`, write the batch as a row-group, reset the
builders and increment `chunk_count`; if then `chunk_count > max_chunk_count`,
close the file, reset `chunk_count`, increment `total_files` and open the next
file. -/
def processEvent (max_chunk_rows max_chunk_count : Nat) (st : LoopState)
    (event : NormalizedTimeTag) : LoopState :=
  let st1 : LoopState :=
    { st with
      array_length := st.array_length + 1
      channel_array_builder := st.channel_array_builder ++ [event.channel_id]
      time_tag_array_builder := st.time_tag_array_builder ++ [event.time_tag_ps] }
  let st2 : LoopState :=
    if st1.array_length ≥ max_chunk_rows then
      { st1 with
        current_chunks :=
          st1.current_chunks ++ [⟨st1.channel_array_builder, st1.time_tag_array_builder⟩]
        channel_array_builder := []
        time_tag_array_builder := []
        array_length := 0
        chunk_count := st1.chunk_count + 1 }
    else st1
  if st2.chunk_count > max_chunk_count then
    { st2 with
      closed_files := st2.closed_files ++ [⟨st2.total_files, st2.current_chunks⟩]
      chunk_count := 0
      total_files := st2.total_files + 1
      current_chunks := [] }
  else st2

/-- The loop state after feeding a list of records to the loop of
`write_time_tags`, starting from `initState`. -/
def loopState (max_chunk_rows max_chunk_count : Nat)
    (time_tags : List NormalizedTimeTag) : LoopState :=
  time_tags.foldl (processEvent max_chunk_rows max_chunk_count) initState

/-- The epilogue of `write_time_tags` (src/main.rs, lines 115-126): if
`array_length > 0`, write the remaining partial batch as one last row-group
(no `chunk_count` increment, no rotation check), then close the current file.
The result is the full list of produced files in creation order. -/
def finishWrite (st : LoopState) : List FileOut :=
  let st2 : LoopState :=
    if st.array_length > 0 then
      { st with
        current_chunks :=
          st.current_chunks ++ [⟨st.channel_array_builder, st.time_tag_array_builder⟩] }
    else st
  st2.closed_files ++ [⟨st2.total_files, st2.current_chunks⟩]

/-- The single error kind the function can raise on its own: the `bail!` at
src/main.rs lines 53-58 when the output path is not a directory. -/
inductive WriteError where
  | notADirectory
deriving Repr, DecidableEq

/-- The derived per-file chunk budget (src/main.rs, line 65):
`max_file_rows / max_chunk_rows`, integer division on `usize`. -/
def max_chunk_count (max_chunk_rows max_file_rows : Nat) : Nat :=
  max_file_rows / max_chunk_rows

/-- Embedding of `write_time_tags` (src/main.rs, lines 46-129) with the two
size limits of lines 51-52 exposed as parameters.  The filesystem is abstracted to the single
bit the function branches on: whether `output_dir.is_dir()` holds.  The
directory check (`bail!`, lines 53-58) precedes every file creation, so on the
error branch no file exists; on the success branch the produced files are the
loop's closed files followed by the final close. -/
def write_time_tags_sized (max_chunk_rows max_file_rows : Nat)
    (output_dir_is_dir : Bool) (time_tags : List NormalizedTimeTag) :
    Except WriteError (List FileOut) :=
  if output_dir_is_dir = false then
    Except.error WriteError.notADirectory
  else
    Except.ok
      (finishWrite (loopState max_chunk_rows (max_chunk_count max_chunk_rows max_file_rows) time_tags))

/-- The hard-coded default of `max_chunk_rows` (src/main.rs, line 51). -/
def default_max_chunk_rows : Nat := 20000000

/-- The hard-coded default of `max_file_rows` (src/main.rs, line 52). -/
def default_max_file_rows : Nat := 200000000

/-- The function `write_time_tags` exactly as in the source: the sized writer
at the two hard-coded limits of src/main.rs lines 51-52. -/
def write_time_tags (output_dir_is_dir : Bool)
    (time_tags : List NormalizedTimeTag) : Except WriteError (List FileOut) :=
  write_time_tags_sized default_max_chunk_rows default_max_file_rows
    output_dir_is_dir time_tags

/-- The files materialized on disk by an invocation: none on the error branch
(the `bail!` precedes the first `File::create_new`), the returned list
otherwise. -/
def filesOf (r : Except WriteError (List FileOut)) : List FileOut :=
  match r with
  | Except.error _ => []
  | Except.ok fs => fs

/-- Row count of one row-group, as counted by the parquet metadata: the length
of its `channel` column. -/
def chunkRows (rg : RowGroup) : Nat := rg.channel.length

/-- Total row count of one file: the sum over its row-groups. -/
def fileRows (f : FileOut) : Nat := (f.chunks.map chunkRows).sum

/-- Total row count across all row-groups of all files. -/
def totalRows (files : List FileOut) : Nat := (files.map fileRows).sum

/-- All row-groups of a list of files, in file order then write order. -/
def allRowGroups (files : List FileOut) : List RowGroup :=
  (files.map FileOut.chunks).flatten

/-- The rows of one row-group read back as (channel, time_tag) pairs: position
`i` of both columns together. -/
def rowGroupPairs (rg : RowGroup) : List (Nat × Nat) :=
  rg.channel.zip rg.time_tag

/-- All rows of all files read back as (channel, time_tag) pairs, in file,
row-group and row order. -/
def allPairs (files : List FileOut) : List (Nat × Nat) :=
  ((allRowGroups files).map rowGroupPairs).flatten

/-- The two fields of a source record, as they are appended to the builders. -/
def eventPair (event : NormalizedTimeTag) : Nat × Nat :=
  (event.channel_id, event.time_tag_ps)

/-- Decimal digit as a character, as Rust's integer `Display` emits it. -/
def digitChar10 (d : Nat) : Char := Char.ofNat (48 + d)

/-- Little-endian decimal digits of `n`, with explicit fuel so the kernel can
evaluate it; `decDigitsRev` supplies enough fuel. -/
def decDigitsRevFuel : Nat → Nat → List Nat
  | 0, _ => []
  | _ + 1, 0 => []
  | fuel + 1, n + 1 => (n + 1) % 10 :: decDigitsRevFuel fuel ((n + 1) / 10)

/-- Little-endian decimal digits of `n` (empty for zero). -/
def decDigitsRev (n : Nat) : List Nat := decDigitsRevFuel n n

/-- The decimal rendering of a `usize` by Rust's `Display`: most-significant
digit first, no leading zeros, `"0"` for zero. -/
def decRepr (n : Nat) : List Char :=
  if n = 0 then ['0'] else ((decDigitsRev n).reverse).map digitChar10

/-- The `{:0>4}` format specifier: left-pad with `'0'` to width 4 (longer
inputs pass through unchanged, as `4 - l.length = 0`). -/
def padLeft4 (l : List Char) : List Char :=
  List.replicate (4 - l.length) '0' ++ l

/-- The file name built at src/main.rs lines 70 and 109:
`format!("{file_timestamp}_{name}_{total_files:0>4}.parquet")`. -/
def parquetFileName (file_timestamp name : String) (total_files : Nat) : String :=
  file_timestamp ++ "_" ++ name ++ "_" ++ String.mk (padLeft4 (decRepr total_files)) ++ ".parquet"

/-- The names of the produced files: each file was created (at line 70 resp.
109) while `total_files` equalled its recorded `seq`, under the single
`file_timestamp` captured at line 66 and the caller's `name`. -/
def outputFileNames (file_timestamp name : String) (files : List FileOut) : List String :=
  files.map (fun f => parquetFileName file_timestamp name f.seq)

/-! ### The fuel-based decimal digits agree with `Nat.digits 10` -/

theorem decDigitsRevFuel_eq_digits (fuel n : Nat) (h : n ≤ fuel) :
    decDigitsRevFuel fuel n = Nat.digits 10 n := by
  induction fuel generalizing n with
  | zero =>
    have hn : n = 0 := Nat.le_zero.mp h
    subst hn
    simp [decDigitsRevFuel]
  | succ fuel ih =>
    cases n with
    | zero => simp [decDigitsRevFuel]
    | succ m =>
      rw [decDigitsRevFuel, Nat.digits_def' (by norm_num : (1 : Nat) < 10) (Nat.succ_pos m)]
      have hdiv : (m + 1) / 10 ≤ fuel := by
        have := Nat.div_lt_self (Nat.succ_pos m) (by norm_num : (1 : Nat) < 10)
        omega
      rw [ih ((m + 1) / 10) hdiv]

theorem decDigitsRev_eq_digits (n : Nat) : decDigitsRev n = Nat.digits 10 n :=
  decDigitsRevFuel_eq_digits n n (Nat.le_refl n)

/-! ### Case-unfolding lemmas for one loop iteration -/

/-- If the appended record does not fill the chunk and the chunk counter is
within budget (as it always is at the top of the loop), the iteration only
grows the builders. -/
theorem processEvent_no_flush (mcr mcc : Nat) (st : LoopState) (e : NormalizedTimeTag)
    (h1 : ¬ st.array_length + 1 ≥ mcr) (h2 : ¬ st.chunk_count > mcc) :
    processEvent mcr mcc st e =
      { st with
        array_length := st.array_length + 1
        channel_array_builder := st.channel_array_builder ++ [e.channel_id]
        time_tag_array_builder := st.time_tag_array_builder ++ [e.time_tag_ps] } := by
  simp [processEvent, h1, h2]

/-- If the appended record fills the chunk but the incremented chunk counter
stays within budget, the iteration flushes one row-group and does not rotate. -/
theorem processEvent_flush_no_rotate (mcr mcc : Nat) (st : LoopState) (e : NormalizedTimeTag)
    (h1 : st.array_length + 1 ≥ mcr) (h2 : ¬ st.chunk_count + 1 > mcc) :
    processEvent mcr mcc st e =
      { st with
        array_length := 0
        channel_array_builder := []
        time_tag_array_builder := []
        current_chunks := st.current_chunks ++
          [⟨st.channel_array_builder ++ [e.channel_id],
            st.time_tag_array_builder ++ [e.time_tag_ps]⟩]
        chunk_count := st.chunk_count + 1 } := by
  simp [processEvent, h1, h2]

/-- If the appended record fills the chunk and the incremented chunk counter
strictly exceeds the budget, the iteration flushes and then rotates: the
current file is closed with the fresh row-group as its last chunk, the chunk
counter resets to zero and `total_files` advances. -/
theorem processEvent_flush_rotate (mcr mcc : Nat) (st : LoopState) (e : NormalizedTimeTag)
    (h1 : st.array_length + 1 ≥ mcr) (h2 : st.chunk_count + 1 > mcc) :
    processEvent mcr mcc st e =
      { closed_files := st.closed_files ++
          [⟨st.total_files,
            st.current_chunks ++
              [⟨st.channel_array_builder ++ [e.channel_id],
                st.time_tag_array_builder ++ [e.time_tag_ps]⟩]⟩]
        total_files := st.total_files + 1
        current_chunks := []
        channel_array_builder := []
        time_tag_array_builder := []
        array_length := 0
        chunk_count := 0 } := by
  simp [processEvent, h1, h2]

theorem loopState_nil (mcr mcc : Nat) : loopState mcr mcc [] = initState := rfl

theorem loopState_concat (mcr mcc : Nat) (l : List NormalizedTimeTag)
    (e : NormalizedTimeTag) :
    loopState mcr mcc (l ++ [e]) = processEvent mcr mcc (loopState mcr mcc l) e := by
  simp [loopState, List.foldl_concat]

/-! ### Successor facts for division and remainder by a variable modulus -/

theorem mod_div_succ_lt (m q r : Nat) (hm : 0 < m) (hr : r + 1 < m) :
    (m * q + r + 1) % m = r + 1 ∧ (m * q + r + 1) / m = q := by
  have e : m * q + r + 1 = r + 1 + m * q := by ring
  refine ⟨?_, ?_⟩
  · rw [e, Nat.add_mul_mod_self_left, Nat.mod_eq_of_lt hr]
  · rw [e, Nat.add_mul_div_left _ _ hm, Nat.div_eq_of_lt hr, Nat.zero_add]

theorem mod_div_succ_eq (m q r : Nat) (hm : 0 < m) (hr : r + 1 = m) :
    (m * q + r + 1) % m = 0 ∧ (m * q + r + 1) / m = q + 1 := by
  have e : m * q + r + 1 = m * (q + 1) := by rw [Nat.mul_succ, Nat.add_assoc, hr]
  refine ⟨?_, ?_⟩
  · rw [e]
    exact Nat.mul_mod_right m (q + 1)
  · rw [e]
    exact Nat.mul_div_cancel_left (q + 1) hm

theorem succ_mod_div_of_lt (m n : Nat) (hm : 0 < m) (h : n % m + 1 < m) :
    (n + 1) % m = n % m + 1 ∧ (n + 1) / m = n / m := by
  have key := mod_div_succ_lt m (n / m) (n % m) hm h
  rwa [Nat.div_add_mod] at key

theorem succ_mod_div_of_eq (m n : Nat) (hm : 0 < m) (h : n % m + 1 = m) :
    (n + 1) % m = 0 ∧ (n + 1) / m = n / m + 1 := by
  have key := mod_div_succ_eq m (n / m) (n % m) hm h
  rwa [Nat.div_add_mod] at key

/-! ### The loop invariant -/

/-- Everything that holds of the loop state after feeding `l`: the counters as
closed forms in `l.length`, the shape of closed files and chunks, the content
equation tying all written rows plus the buffered rows to the input, and the
file-sequence bookkeeping. -/
structure LoopInv (mcr mcc : Nat) (l : List NormalizedTimeTag) (st : LoopState) : Prop where
  buf_channel : st.channel_array_builder.length = st.array_length
  buf_time : st.time_tag_array_builder.length = st.array_length
  arr_len : st.array_length = l.length % mcr
  cnt : st.chunk_count = l.length / mcr % (mcc + 1)
  cur_len : st.current_chunks.length = st.chunk_count
  closed_len : st.closed_files.length = l.length / mcr / (mcc + 1)
  closed_chunks : ∀ f ∈ st.closed_files, f.chunks.length = mcc + 1
  sizes : ∀ rg ∈ (st.closed_files.map FileOut.chunks).flatten ++ st.current_chunks,
    rg.channel.length = mcr ∧ rg.time_tag.length = mcr
  content :
    (((st.closed_files.map FileOut.chunks).flatten ++ st.current_chunks).map rowGroupPairs).flatten
        ++ st.channel_array_builder.zip st.time_tag_array_builder
      = l.map eventPair
  seqs : st.closed_files.map FileOut.seq = List.range' 1 st.closed_files.length
  total : st.total_files = st.closed_files.length + 1

theorem loopInv_loopState (mcr mcc : Nat) (hm : 0 < mcr) (l : List NormalizedTimeTag) :
    LoopInv mcr mcc l (loopState mcr mcc l) := by
  induction l using List.reverseRecOn with
  | nil =>
    refine ⟨?_, ?_, ?_, ?_, ?_, ?_, ?_, ?_, ?_, ?_, ?_⟩ <;>
      simp [loopState_nil, initState]
  | append_singleton l e ih =>
    rw [loopState_concat]
    obtain ⟨hbc, hbt, harr, hcnt, hcur, hclen, hcch, hsz, hcontent, hseq, htot⟩ := ih
    have hmod : l.length % mcr < mcr := Nat.mod_lt _ hm
    have hcntlt : l.length / mcr % (mcc + 1) < mcc + 1 := Nat.mod_lt _ (Nat.succ_pos mcc)
    have hzip :
        ((loopState mcr mcc l).channel_array_builder ++ [e.channel_id]).zip
            ((loopState mcr mcc l).time_tag_array_builder ++ [e.time_tag_ps]) =
          (loopState mcr mcc l).channel_array_builder.zip
            (loopState mcr mcc l).time_tag_array_builder ++ [(e.channel_id, e.time_tag_ps)] := by
      rw [List.zip_append (hbc.trans hbt.symm)]
      rfl
    by_cases hflush : (loopState mcr mcc l).array_length + 1 ≥ mcr
    · have harr1 : l.length % mcr + 1 = mcr := by omega
      have hmd := succ_mod_div_of_eq mcr l.length hm harr1
      by_cases hrot : (loopState mcr mcc l).chunk_count + 1 > mcc
      · have hcm : l.length / mcr % (mcc + 1) + 1 = mcc + 1 := by omega
        have hmd2 := succ_mod_div_of_eq (mcc + 1) (l.length / mcr) (Nat.succ_pos mcc) hcm
        rw [processEvent_flush_rotate mcr mcc _ e hflush hrot]
        refine ⟨?_, ?_, ?_, ?_, ?_, ?_, ?_, ?_, ?_, ?_, ?_⟩
        · rfl
        · rfl
        · simpa [List.length_append] using hmd.1.symm
        · simp only [List.length_append, List.length_cons, List.length_nil, hmd.2, hmd2.1]
        · rfl
        · simp only [List.length_append, List.length_cons, List.length_nil, hmd.2, hmd2.2]
          omega
        · intro f hf
          rcases List.mem_append.mp hf with hf | hf
          · exact hcch f hf
          · rcases List.mem_singleton.mp hf with rfl
            simp only [List.length_append, List.length_cons, List.length_nil]
            omega
        · intro rg hrg
          simp only [List.map_append, List.map_cons, List.map_nil, List.flatten_append,
            List.flatten_cons, List.flatten_nil, List.append_nil, List.append_assoc,
            List.mem_append, List.mem_cons, List.not_mem_nil, or_false] at hrg
          rcases hrg with hrg | hrg | hrg
          · exact hsz rg (List.mem_append.mpr (Or.inl hrg))
          · exact hsz rg (List.mem_append.mpr (Or.inr hrg))
          · subst hrg
            constructor
            · simp only [List.length_append, List.length_cons, List.length_nil]
              omega
            · simp only [List.length_append, List.length_cons, List.length_nil]
              omega
        · have hnc : rowGroupPairs
              ⟨(loopState mcr mcc l).channel_array_builder ++ [e.channel_id],
                (loopState mcr mcc l).time_tag_array_builder ++ [e.time_tag_ps]⟩ =
              (loopState mcr mcc l).channel_array_builder.zip
                (loopState mcr mcc l).time_tag_array_builder ++ [eventPair e] := hzip
          simp only [List.map_append, List.flatten_append] at hcontent
          simp only [List.map_append, List.map_cons, List.map_nil, List.flatten_append,
            List.flatten_cons, List.flatten_nil, List.append_nil, List.zip_nil_left, hnc]
          simp only [← List.append_assoc] at hcontent ⊢
          rw [hcontent]
        · simp only [List.map_append, List.map_cons, List.map_nil, List.length_append,
            List.length_cons, List.length_nil, hseq, htot]
          rw [List.range'_concat]
          simp [Nat.add_comm]
        · simp only [List.length_append, List.length_cons, List.length_nil]
          omega
      · have hcm : l.length / mcr % (mcc + 1) + 1 < mcc + 1 := by omega
        have hmd2 := succ_mod_div_of_lt (mcc + 1) (l.length / mcr) (Nat.succ_pos mcc) hcm
        rw [processEvent_flush_no_rotate mcr mcc _ e hflush hrot]
        refine ⟨?_, ?_, ?_, ?_, ?_, ?_, ?_, ?_, ?_, ?_, ?_⟩
        · rfl
        · rfl
        · simpa [List.length_append] using hmd.1.symm
        · simp only [List.length_append, List.length_cons, List.length_nil, hmd.2, hmd2.1]
          omega
        · simp only [List.length_append, List.length_cons, List.length_nil]
          omega
        · simp only [List.length_append, List.length_cons, List.length_nil, hmd.2, hmd2.2]
          omega
        · intro f hf
          exact hcch f hf
        · intro rg hrg
          simp only [List.mem_append, List.mem_cons, List.not_mem_nil, or_false] at hrg
          rcases hrg with hrg | hrg | hrg
          · exact hsz rg (List.mem_append.mpr (Or.inl hrg))
          · exact hsz rg (List.mem_append.mpr (Or.inr hrg))
          · subst hrg
            constructor
            · simp only [List.length_append, List.length_cons, List.length_nil]
              omega
            · simp only [List.length_append, List.length_cons, List.length_nil]
              omega
        · have hnc : rowGroupPairs
              ⟨(loopState mcr mcc l).channel_array_builder ++ [e.channel_id],
                (loopState mcr mcc l).time_tag_array_builder ++ [e.time_tag_ps]⟩ =
              (loopState mcr mcc l).channel_array_builder.zip
                (loopState mcr mcc l).time_tag_array_builder ++ [eventPair e] := hzip
          simp only [List.map_append, List.flatten_append] at hcontent
          simp only [List.map_append, List.map_cons, List.map_nil, List.flatten_append,
            List.flatten_cons, List.flatten_nil, List.append_nil, List.zip_nil_left, hnc]
          simp only [← List.append_assoc] at hcontent ⊢
          rw [hcontent]
        · exact hseq
        · exact htot
    · have hrot : ¬ (loopState mcr mcc l).chunk_count > mcc := by omega
      have harr1 : l.length % mcr + 1 < mcr := by omega
      have hmd := succ_mod_div_of_lt mcr l.length hm harr1
      rw [processEvent_no_flush mcr mcc _ e hflush hrot]
      refine ⟨?_, ?_, ?_, ?_, ?_, ?_, ?_, ?_, ?_, ?_, ?_⟩
      · simp only [List.length_append, List.length_cons, List.length_nil]
        omega
      · simp only [List.length_append, List.length_cons, List.length_nil]
        omega
      · simp only [List.length_append, List.length_cons, List.length_nil, hmd.1]
        omega
      · simp only [List.length_append, List.length_cons, List.length_nil, hmd.2]
        omega
      · exact hcur
      · simp only [List.length_append, List.length_cons, List.length_nil, hmd.2]
        omega
      · exact hcch
      · exact hsz
      · rw [hzip]
        simp only [List.map_append, List.flatten_append] at hcontent
        simp only [List.map_append, List.map_cons, List.map_nil, List.flatten_append, eventPair]
        simp only [← List.append_assoc] at hcontent ⊢
        rw [hcontent]
      · exact hseq
      · exact htot

/-! ### Facts about the finished output -/

theorem write_sized_true (mcr mfr : Nat) (l : List NormalizedTimeTag) :
    write_time_tags_sized mcr mfr true l =
      Except.ok (finishWrite (loopState mcr (max_chunk_count mcr mfr) l)) := rfl

theorem write_sized_ok (mcr mfr : Nat) (l : List NormalizedTimeTag) (files : List FileOut)
    (h : write_time_tags_sized mcr mfr true l = Except.ok files) :
    files = finishWrite (loopState mcr (max_chunk_count mcr mfr) l) := by
  rw [write_sized_true] at h
  exact (Except.ok.inj h).symm

theorem finishWrite_pos (st : LoopState) (h : 0 < st.array_length) :
    finishWrite st = st.closed_files ++
      [⟨st.total_files, st.current_chunks ++
          [⟨st.channel_array_builder, st.time_tag_array_builder⟩]⟩] := by
  simp [finishWrite, h]

theorem finishWrite_zero (st : LoopState) (h : st.array_length = 0) :
    finishWrite st = st.closed_files ++ [⟨st.total_files, st.current_chunks⟩] := by
  simp [finishWrite, h]

theorem allRowGroups_closed_concat (files : List FileOut) (f : FileOut) :
    allRowGroups (files ++ [f]) = (files.map FileOut.chunks).flatten ++ f.chunks := by
  simp [allRowGroups]

/-- After the final flush, reading every row-group of every file back as
(channel, time_tag) pairs gives exactly the input records, in order. -/
theorem allPairs_finish (mcr mcc : Nat) (hm : 0 < mcr) (l : List NormalizedTimeTag) :
    allPairs (finishWrite (loopState mcr mcc l)) = l.map eventPair := by
  obtain ⟨hbc, hbt, harr, hcnt, hcur, hclen, hcch, hsz, hcontent, hseq, htot⟩ :=
    loopInv_loopState mcr mcc hm l
  simp only [List.map_append, List.flatten_append] at hcontent
  rcases Nat.eq_zero_or_pos (loopState mcr mcc l).array_length with h0 | h0
  · have hcb : (loopState mcr mcc l).channel_array_builder = [] :=
      List.length_eq_zero.mp (by rw [hbc, h0])
    have htb : (loopState mcr mcc l).time_tag_array_builder = [] :=
      List.length_eq_zero.mp (by rw [hbt, h0])
    rw [finishWrite_zero _ h0]
    rw [hcb, htb] at hcontent
    simp only [List.zip_nil_left, List.append_nil] at hcontent
    unfold allPairs allRowGroups
    simp only [List.map_append, List.map_cons, List.map_nil, List.flatten_append,
      List.flatten_cons, List.flatten_nil, List.append_nil]
    try simp only [← List.append_assoc] at hcontent
    try simp only [← List.append_assoc]
    exact hcontent
  · rw [finishWrite_pos _ h0]
    have hnc : rowGroupPairs
        ⟨(loopState mcr mcc l).channel_array_builder,
          (loopState mcr mcc l).time_tag_array_builder⟩ =
        (loopState mcr mcc l).channel_array_builder.zip
          (loopState mcr mcc l).time_tag_array_builder := rfl
    unfold allPairs allRowGroups
    simp only [List.map_append, List.map_cons, List.map_nil, List.flatten_append,
      List.flatten_cons, List.flatten_nil, List.append_nil, hnc]
    try simp only [← List.append_assoc] at hcontent
    try simp only [← List.append_assoc]
    exact hcontent

/-- Every row-group of the finished output has equally long `channel` and
`time_tag` columns. -/
theorem align_finish (mcr mcc : Nat) (hm : 0 < mcr) (l : List NormalizedTimeTag) :
    ∀ rg ∈ allRowGroups (finishWrite (loopState mcr mcc l)),
      rg.channel.length = rg.time_tag.length := by
  obtain ⟨hbc, hbt, harr, hcnt, hcur, hclen, hcch, hsz, hcontent, hseq, htot⟩ :=
    loopInv_loopState mcr mcc hm l
  rcases Nat.eq_zero_or_pos (loopState mcr mcc l).array_length with h0 | h0
  · rw [finishWrite_zero _ h0, allRowGroups_closed_concat]
    intro rg hrg
    have := hsz rg hrg
    omega
  · rw [finishWrite_pos _ h0, allRowGroups_closed_concat]
    intro rg hrg
    simp only [List.mem_append, List.mem_cons, List.not_mem_nil, or_false] at hrg
    rcases hrg with hrg | hrg | hrg
    · have := hsz rg (List.mem_append.mpr (Or.inl hrg))
      omega
    · have := hsz rg (List.mem_append.mpr (Or.inr hrg))
      omega
    · subst hrg
      simp only []
      rw [hbc, hbt]

/-- Total row count equals the number of read-back pairs, once every row-group
is aligned. -/
theorem totalRows_eq_allPairs_length (files : List FileOut)
    (h : ∀ rg ∈ allRowGroups files, rg.channel.length = rg.time_tag.length) :
    totalRows files = (allPairs files).length := by
  unfold allPairs
  rw [List.length_flatten, List.map_map]
  have h2 : List.map (List.length ∘ rowGroupPairs) (allRowGroups files) =
      List.map chunkRows (allRowGroups files) := by
    apply List.map_congr_left
    intro rg hrg
    have hl := h rg hrg
    simp [Function.comp, rowGroupPairs, chunkRows, List.length_zip, hl]
  rw [h2]
  unfold totalRows allRowGroups
  rw [List.map_flatten, List.sum_flatten, List.map_map, List.map_map]
  rfl

/-- The produced files carry the contiguous sequence numbers 1, 2, …. -/
theorem seqs_finish (mcr mcc : Nat) (hm : 0 < mcr) (l : List NormalizedTimeTag) :
    (finishWrite (loopState mcr mcc l)).map FileOut.seq =
      List.range' 1 (finishWrite (loopState mcr mcc l)).length := by
  obtain ⟨hbc, hbt, harr, hcnt, hcur, hclen, hcch, hsz, hcontent, hseq, htot⟩ :=
    loopInv_loopState mcr mcc hm l
  have key : ∀ cur : List RowGroup,
      ((loopState mcr mcc l).closed_files ++
          [(⟨(loopState mcr mcc l).total_files, cur⟩ : FileOut)]).map FileOut.seq =
        List.range' 1 ((loopState mcr mcc l).closed_files ++
          [(⟨(loopState mcr mcc l).total_files, cur⟩ : FileOut)]).length := by
    intro cur
    simp only [List.map_append, List.map_cons, List.map_nil, List.length_append,
      List.length_cons, List.length_nil, hseq, htot]
    rw [List.range'_concat]
    simp [Nat.add_comm]
  rcases Nat.eq_zero_or_pos (loopState mcr mcc l).array_length with h0 | h0
  · rw [finishWrite_zero _ h0]
    exact key _
  · rw [finishWrite_pos _ h0]
    exact key _

/-! ### Injectivity of the produced file names -/

theorem digitChar10_inj : ∀ d1 < 10, ∀ d2 < 10, digitChar10 d1 = digitChar10 d2 → d1 = d2 := by
  decide

theorem map_digitChar10_inj : ∀ l1 l2 : List Nat, (∀ d ∈ l1, d < 10) → (∀ d ∈ l2, d < 10) →
    l1.map digitChar10 = l2.map digitChar10 → l1 = l2 := by
  intro l1
  induction l1 with
  | nil =>
    intro l2 _ _ h
    cases l2 with
    | nil => rfl
    | cons b bs => simp at h
  | cons a as ih =>
    intro l2 h1 h2 h
    cases l2 with
    | nil => simp at h
    | cons b bs =>
      simp only [List.map_cons, List.cons.injEq] at h
      have hab : a = b :=
        digitChar10_inj a (h1 a (List.mem_cons_self a as)) b (h2 b (List.mem_cons_self b bs)) h.1
      subst hab
      have htl := ih bs (fun d hd => h1 d (List.mem_cons_of_mem _ hd))
        (fun d hd => h2 d (List.mem_cons_of_mem _ hd)) h.2
      rw [htl]

theorem decRepr_eq_of_ne_zero (n : Nat) (hn : n ≠ 0) :
    decRepr n = ((Nat.digits 10 n).reverse).map digitChar10 := by
  rw [decRepr, if_neg hn, decDigitsRev_eq_digits]

theorem decRepr_head_ne (n : Nat) (hn : n ≠ 0) :
    ∀ c, (decRepr n).head? = some c → c ≠ '0' := by
  intro c hc
  rw [decRepr_eq_of_ne_zero n hn, List.head?_map, List.head?_reverse] at hc
  have hne : Nat.digits 10 n ≠ [] := Nat.digits_ne_nil_iff_ne_zero.mpr hn
  rw [List.getLast?_eq_getLast _ hne] at hc
  have hc2 : digitChar10 ((Nat.digits 10 n).getLast hne) = c := by
    simpa using hc
  have hd10 : (Nat.digits 10 n).getLast hne < 10 :=
    Nat.digits_lt_base (by norm_num) (List.getLast_mem hne)
  have hd0 : (Nat.digits 10 n).getLast hne ≠ 0 := Nat.getLast_digit_ne_zero 10 hn
  intro hc0
  apply hd0
  apply digitChar10_inj _ hd10 0 (by norm_num)
  rw [hc2, hc0]
  rfl

theorem replicate_append_inj (c : Char) : ∀ (p q : Nat) (la lb : List Char),
    (∀ x, la.head? = some x → x ≠ c) → (∀ x, lb.head? = some x → x ≠ c) →
    List.replicate p c ++ la = List.replicate q c ++ lb → la = lb := by
  intro p
  induction p with
  | zero =>
    intro q la lb ha hb h
    cases q with
    | zero => simpa using h
    | succ q =>
      simp only [List.replicate_zero, List.replicate_succ, List.nil_append,
        List.cons_append] at h
      exact absurd rfl (ha c (by rw [h]; rfl))
  | succ p ih =>
    intro q la lb ha hb h
    cases q with
    | zero =>
      simp only [List.replicate_zero, List.replicate_succ, List.nil_append,
        List.cons_append] at h
      exact absurd rfl (hb c (by rw [← h]; rfl))
    | succ q =>
      simp only [List.replicate_succ, List.cons_append, List.cons.injEq] at h
      exact ih q la lb ha hb h.2

theorem padLeft4_decRepr_inj (a b : Nat) (ha : 0 < a) (hb : 0 < b)
    (h : padLeft4 (decRepr a) = padLeft4 (decRepr b)) : a = b := by
  have hrep : decRepr a = decRepr b := by
    refine replicate_append_inj '0' (4 - (decRepr a).length) (4 - (decRepr b).length)
      (decRepr a) (decRepr b) ?_ ?_ h
    · exact decRepr_head_ne a (Nat.pos_iff_ne_zero.mp ha)
    · exact decRepr_head_ne b (Nat.pos_iff_ne_zero.mp hb)
  rw [decRepr_eq_of_ne_zero a (Nat.pos_iff_ne_zero.mp ha),
    decRepr_eq_of_ne_zero b (Nat.pos_iff_ne_zero.mp hb)] at hrep
  have h3 := map_digitChar10_inj _ _
    (fun d hd => Nat.digits_lt_base (by norm_num) (List.mem_reverse.mp hd))
    (fun d hd => Nat.digits_lt_base (by norm_num) (List.mem_reverse.mp hd)) hrep
  have h4 : Nat.digits 10 a = Nat.digits 10 b := by
    have h5 := congrArg List.reverse h3
    simpa using h5
  calc a = Nat.ofDigits 10 (Nat.digits 10 a) := (Nat.ofDigits_digits 10 a).symm
    _ = Nat.ofDigits 10 (Nat.digits 10 b) := by rw [h4]
    _ = b := Nat.ofDigits_digits 10 b

theorem parquetFileName_inj (ts name : String) (a b : Nat) (ha : 0 < a) (hb : 0 < b)
    (h : parquetFileName ts name a = parquetFileName ts name b) : a = b := by
  apply padLeft4_decRepr_inj a b ha hb
  have hd := congrArg String.data h
  simp only [parquetFileName, String.data_append] at hd
  have h1 := List.append_cancel_right hd
  have h2 := List.append_cancel_left h1
  exact h2

/-! ### Concrete inputs used by the spec's scenarios -/

/-- Ten records for the rotation-boundary scenario (`max_chunk_rows = 2`,
`max_file_rows = 4`). -/
def scenario_ten : List NormalizedTimeTag :=
  [⟨0, 101⟩, ⟨1, 102⟩, ⟨0, 103⟩, ⟨1, 104⟩, ⟨0, 105⟩,
   ⟨1, 106⟩, ⟨0, 107⟩, ⟨1, 108⟩, ⟨0, 109⟩, ⟨1, 110⟩]

/-- The five-record end-to-end input, as in the stub `main` of src/main.rs
lines 194-224. -/
def scenario_five : List NormalizedTimeTag :=
  [⟨0, 100⟩, ⟨1, 200⟩, ⟨0, 181⟩, ⟨1, 201⟩, ⟨0, 210⟩]

/-- Six records: with `max_chunk_rows = 2`, `max_file_rows = 4` the rotation
fires on the very last record. -/
def scenario_six : List NormalizedTimeTag :=
  [⟨0, 1⟩, ⟨1, 2⟩, ⟨0, 3⟩, ⟨1, 4⟩, ⟨0, 5⟩, ⟨1, 6⟩]

/-! ### The claims -/

/-- C1.  Row conservation: for every input accepted by `write_time_tags`
(valid output directory, no I/O failure), the total number of rows written
across all row-groups of all produced files equals the input length — no
record dropped, none duplicated. -/
theorem C1_row_conservation (mcr mfr : Nat) (hm : 0 < mcr) (l : List NormalizedTimeTag)
    (files : List FileOut) (h : write_time_tags_sized mcr mfr true l = Except.ok files) :
    totalRows files = l.length := by
  rw [write_sized_ok mcr mfr l files h]
  rw [totalRows_eq_allPairs_length _ (align_finish mcr (max_chunk_count mcr mfr) hm l)]
  rw [allPairs_finish mcr (max_chunk_count mcr mfr) hm l]
  exact List.length_map l eventPair

theorem C1_row_conservation_witness :
    totalRows [(⟨1, [⟨[0, 1], [100, 200]⟩, ⟨[0, 1], [181, 201]⟩, ⟨[0], [210]⟩]⟩ : FileOut)] =
      scenario_five.length :=
  C1_row_conservation 2 100 (by decide) scenario_five
    [⟨1, [⟨[0, 1], [100, 200]⟩, ⟨[0, 1], [181, 201]⟩, ⟨[0], [210]⟩]⟩] rfl

/-- C3.  Column alignment and order preservation: in every row-group the
`channel` and `time_tag` arrays have equal length, and reading all row-groups
of all files in order, pairing position `i` of both columns, gives exactly the
(channel_id, time_tag_ps) pairs of the input records in original order. -/
theorem C3_column_alignment (mcr mfr : Nat) (hm : 0 < mcr) (l : List NormalizedTimeTag)
    (files : List FileOut) (h : write_time_tags_sized mcr mfr true l = Except.ok files) :
    (∀ rg ∈ allRowGroups files, rg.channel.length = rg.time_tag.length) ∧
    allPairs files = l.map eventPair := by
  rw [write_sized_ok mcr mfr l files h]
  exact ⟨align_finish mcr (max_chunk_count mcr mfr) hm l,
    allPairs_finish mcr (max_chunk_count mcr mfr) hm l⟩

theorem C3_column_alignment_witness :
    (∀ rg ∈ allRowGroups
        [(⟨1, [⟨[0, 1], [100, 200]⟩, ⟨[0, 1], [181, 201]⟩, ⟨[0], [210]⟩]⟩ : FileOut)],
      rg.channel.length = rg.time_tag.length) ∧
    allPairs [(⟨1, [⟨[0, 1], [100, 200]⟩, ⟨[0, 1], [181, 201]⟩, ⟨[0], [210]⟩]⟩ : FileOut)] =
      scenario_five.map eventPair :=
  C3_column_alignment 2 100 (by decide) scenario_five
    [⟨1, [⟨[0, 1], [100, 200]⟩, ⟨[0, 1], [181, 201]⟩, ⟨[0], [210]⟩]⟩] rfl

/-- C4.  Buffer bound: after any processed prefix the builders hold strictly
fewer than `max_chunk_rows` rows (so the count never exceeds `max_chunk_rows`,
even at the instant right after an append), and whenever an append makes the
counter reach `max_chunk_rows` the iteration flushes and resets it to zero. -/
theorem C4_buffer_bound (mcr mfr : Nat) (hm : 0 < mcr) (l1 : List NormalizedTimeTag) :
    (loopState mcr (max_chunk_count mcr mfr) l1).array_length < mcr ∧
    (∀ e : NormalizedTimeTag,
      (loopState mcr (max_chunk_count mcr mfr) l1).array_length + 1 = mcr →
      (processEvent mcr (max_chunk_count mcr mfr)
          (loopState mcr (max_chunk_count mcr mfr) l1) e).array_length = 0) := by
  obtain ⟨hbc, hbt, harr, hcnt, hcur, hclen, hcch, hsz, hcontent, hseq, htot⟩ :=
    loopInv_loopState mcr (max_chunk_count mcr mfr) hm l1
  constructor
  · rw [harr]
    exact Nat.mod_lt _ hm
  · intro e he
    have hflush : (loopState mcr (max_chunk_count mcr mfr) l1).array_length + 1 ≥ mcr :=
      Nat.le_of_eq he.symm
    by_cases hrot :
        (loopState mcr (max_chunk_count mcr mfr) l1).chunk_count + 1 > max_chunk_count mcr mfr
    · rw [processEvent_flush_rotate _ _ _ e hflush hrot]
    · rw [processEvent_flush_no_rotate _ _ _ e hflush hrot]

theorem C4_buffer_bound_witness :
    (loopState 2 (max_chunk_count 2 4) scenario_five).array_length < 2 ∧
    (∀ e : NormalizedTimeTag,
      (loopState 2 (max_chunk_count 2 4) scenario_five).array_length + 1 = 2 →
      (processEvent 2 (max_chunk_count 2 4)
          (loopState 2 (max_chunk_count 2 4) scenario_five) e).array_length = 0) :=
  C4_buffer_bound 2 4 (by decide) scenario_five

/-- C2.  Rotation boundary, off-by-one preserved: when a completed flush
leaves the chunk counter strictly greater than `max_chunk_count`, the current
file is closed with that flush as its last chunk, the new session's counter
resets to zero and `total_files` advances — and when the incremented counter
does not strictly exceed `max_chunk_count`, no rotation happens; with the
off-by-one this means a file receives up to `max_chunk_count + 1` chunks.
With `max_chunk_rows = 2` and
`max_file_rows = 4` (`max_chunk_count = 2`), ten records put three row-groups
(six rows, which is `(max_chunk_count + 1) * max_chunk_rows`) into file #1
before rotating, and file #2 receives the remainder one row-group at a time. -/
theorem C2_rotation_boundary (mcr mcc : Nat) (st : LoopState) (e : NormalizedTimeTag)
    (hflush : st.array_length + 1 ≥ mcr) (hrot : st.chunk_count + 1 > mcc) :
    ((processEvent mcr mcc st e).closed_files =
        st.closed_files ++
          [⟨st.total_files,
            st.current_chunks ++
              [⟨st.channel_array_builder ++ [e.channel_id],
                st.time_tag_array_builder ++ [e.time_tag_ps]⟩]⟩] ∧
      (processEvent mcr mcc st e).chunk_count = 0 ∧
      (processEvent mcr mcc st e).total_files = st.total_files + 1) ∧
    (∀ (st2 : LoopState) (e2 : NormalizedTimeTag), st2.array_length + 1 ≥ mcr →
      ¬ st2.chunk_count + 1 > mcc →
      (processEvent mcr mcc st2 e2).closed_files = st2.closed_files ∧
      (processEvent mcr mcc st2 e2).chunk_count = st2.chunk_count + 1 ∧
      (processEvent mcr mcc st2 e2).total_files = st2.total_files) ∧
    write_time_tags_sized 2 4 true scenario_ten =
      Except.ok
        [⟨1, [⟨[0, 1], [101, 102]⟩, ⟨[0, 1], [103, 104]⟩, ⟨[0, 1], [105, 106]⟩]⟩,
         ⟨2, [⟨[0, 1], [107, 108]⟩, ⟨[0, 1], [109, 110]⟩]⟩] ∧
    fileRows ⟨1, [⟨[0, 1], [101, 102]⟩, ⟨[0, 1], [103, 104]⟩, ⟨[0, 1], [105, 106]⟩]⟩ =
      (max_chunk_count 2 4 + 1) * 2 := by
  refine ⟨?_, ?_, rfl, rfl⟩
  · rw [processEvent_flush_rotate mcr mcc st e hflush hrot]
    exact ⟨rfl, rfl, rfl⟩
  · intro st2 e2 hflush2 hrot2
    rw [processEvent_flush_no_rotate mcr mcc st2 e2 hflush2 hrot2]
    exact ⟨rfl, rfl, rfl⟩

theorem C2_rotation_boundary_witness :
    (processEvent 2 2 ⟨[], 1, [⟨[5], [6]⟩, ⟨[7], [8]⟩], [9], [10], 1, 2⟩ ⟨0, 11⟩).chunk_count = 0 ∧
    (processEvent 2 2 ⟨[], 1, [⟨[5], [6]⟩, ⟨[7], [8]⟩], [9], [10], 1, 2⟩ ⟨0, 11⟩).total_files = 2 :=
  ⟨(C2_rotation_boundary 2 2 ⟨[], 1, [⟨[5], [6]⟩, ⟨[7], [8]⟩], [9], [10], 1, 2⟩ ⟨0, 11⟩
      (by decide) (by decide)).1.2.1,
   (C2_rotation_boundary 2 2 ⟨[], 1, [⟨[5], [6]⟩, ⟨[7], [8]⟩], [9], [10], 1, 2⟩ ⟨0, 11⟩
      (by decide) (by decide)).1.2.2⟩

/-- C5.  Final-flush exemption: on input exhaustion with a non-empty buffer,
exactly one final row-group is written into the current file and that file is
closed, with no rotation regardless of the chunk count (the output has exactly
one file more than the rotations closed); the five-record scenario with
`max_chunk_rows = 2`, `max_file_rows = 100` yields row-groups of 2, 2 and 1
rows in a single file. -/
theorem C5_final_flush_exemption (st : LoopState) (h : 0 < st.array_length) :
    (finishWrite st = st.closed_files ++
        [⟨st.total_files, st.current_chunks ++
            [⟨st.channel_array_builder, st.time_tag_array_builder⟩]⟩] ∧
      (finishWrite st).length = st.closed_files.length + 1) ∧
    write_time_tags_sized 2 100 true scenario_five =
      Except.ok [⟨1, [⟨[0, 1], [100, 200]⟩, ⟨[0, 1], [181, 201]⟩, ⟨[0], [210]⟩]⟩] := by
  refine ⟨⟨finishWrite_pos st h, ?_⟩, rfl⟩
  rw [finishWrite_pos st h]
  simp

theorem C5_final_flush_exemption_witness :
    (finishWrite ⟨[], 1, [], [3], [4], 1, 50⟩ = [⟨1, [⟨[3], [4]⟩]⟩] ∧
      (finishWrite ⟨[], 1, [], [3], [4], 1, 50⟩).length = 1) ∧
    write_time_tags_sized 2 100 true scenario_five =
      Except.ok [⟨1, [⟨[0, 1], [100, 200]⟩, ⟨[0, 1], [181, 201]⟩, ⟨[0], [210]⟩]⟩] :=
  C5_final_flush_exemption ⟨[], 1, [], [3], [4], 1, 50⟩ (by decide)

/-- C6.  Directory precondition and error atomicity: with an output path that
is not an existing directory, `write_time_tags` returns the configuration
error kind and no file is created (the `bail!` precedes the first
`File::create_new`). -/
theorem C6_directory_precondition (mcr mfr : Nat) (l : List NormalizedTimeTag) :
    write_time_tags_sized mcr mfr false l = Except.error WriteError.notADirectory ∧
    filesOf (write_time_tags_sized mcr mfr false l) = [] ∧
    write_time_tags false l = Except.error WriteError.notADirectory ∧
    filesOf (write_time_tags false l) = [] :=
  ⟨rfl, rfl, rfl, rfl⟩

/-- C7.  Empty input: with a valid output directory and zero records, the
writer succeeds and produces exactly one file, containing zero row-groups,
which is closed. -/
theorem C7_empty_input (mcr mfr : Nat) :
    write_time_tags_sized mcr mfr true [] = Except.ok [⟨1, []⟩] ∧
    write_time_tags true [] = Except.ok [⟨1, []⟩] :=
  ⟨rfl, rfl⟩

/-- C8.  Deterministic, collision-free naming: the produced files carry the
contiguous sequence numbers 1, 2, … (one step per rotation, never reused), and
their names all instantiate `{timestamp}_{label}_{seq:04d}.parquet` with the
single timestamp captured at writer start, so no two files of one invocation
share a name. -/
theorem C8_naming_uniqueness (ts name : String) (mcr mfr : Nat) (hm : 0 < mcr)
    (l : List NormalizedTimeTag) (files : List FileOut)
    (h : write_time_tags_sized mcr mfr true l = Except.ok files) :
    files.map FileOut.seq = List.range' 1 files.length ∧
    outputFileNames ts name files =
      (List.range' 1 files.length).map (parquetFileName ts name) ∧
    (outputFileNames ts name files).Pairwise (fun a b => a ≠ b) := by
  have hseqs : files.map FileOut.seq = List.range' 1 files.length := by
    rw [write_sized_ok mcr mfr l files h]
    exact seqs_finish mcr (max_chunk_count mcr mfr) hm l
  have hnames : outputFileNames ts name files =
      (List.range' 1 files.length).map (parquetFileName ts name) := by
    unfold outputFileNames
    rw [← hseqs, List.map_map]
    rfl
  refine ⟨hseqs, hnames, ?_⟩
  rw [hnames, List.pairwise_map]
  refine List.Pairwise.imp_of_mem ?_ (List.pairwise_lt_range' 1 files.length)
  intro a b hma hmb hlt heq
  have ha1 : 1 ≤ a := (List.mem_range'_1.mp hma).1
  have hb1 : 1 ≤ b := (List.mem_range'_1.mp hmb).1
  have hab := parquetFileName_inj ts name a b ha1 hb1 heq
  omega

theorem C8_naming_uniqueness_witness :
    (outputFileNames "20240101T000000Z" "simulation-1"
        [(⟨1, [⟨[0, 1], [101, 102]⟩, ⟨[0, 1], [103, 104]⟩, ⟨[0, 1], [105, 106]⟩]⟩ : FileOut),
         ⟨2, [⟨[0, 1], [107, 108]⟩, ⟨[0, 1], [109, 110]⟩]⟩]).Pairwise (fun a b => a ≠ b) :=
  (C8_naming_uniqueness "20240101T000000Z" "simulation-1" 2 4 (by decide) scenario_ten
    [⟨1, [⟨[0, 1], [101, 102]⟩, ⟨[0, 1], [103, 104]⟩, ⟨[0, 1], [105, 106]⟩]⟩,
     ⟨2, [⟨[0, 1], [107, 108]⟩, ⟨[0, 1], [109, 110]⟩]⟩] rfl).2.2

/-- C9.  Configuration surface: `max_chunk_rows` and `max_file_rows` default
to 20,000,000 and 200,000,000; the derived limit is their integer quotient,
which is 10 under the defaults, and `write_time_tags` is exactly the sized
writer at the defaults. -/
theorem C9_configuration :
    default_max_chunk_rows = 20000000 ∧
    default_max_file_rows = 200000000 ∧
    (∀ mcr mfr : Nat, max_chunk_count mcr mfr = mfr / mcr) ∧
    max_chunk_count default_max_chunk_rows default_max_file_rows = 10 ∧
    (∀ (b : Bool) (l : List NormalizedTimeTag),
      write_time_tags b l = write_time_tags_sized default_max_chunk_rows
        default_max_file_rows b l) :=
  ⟨rfl, rfl, fun _ _ => rfl, rfl, fun _ _ => rfl⟩

/-- C10.  Trailing empty file: if the input length is a positive multiple of
`(max_chunk_count + 1) * max_chunk_rows`, rotation fires on the very last
record, so the output ends with a file holding zero row-groups (and at least
one earlier file exists); in every other non-empty case all produced files
hold at least one row-group; and every row-group except possibly the last one
holds exactly `max_chunk_rows` rows. -/
theorem C10_trailing_empty_file (mcr mfr : Nat) (hm : 0 < mcr) (l : List NormalizedTimeTag)
    (files : List FileOut) (h : write_time_tags_sized mcr mfr true l = Except.ok files) :
    (l ≠ [] → l.length % ((max_chunk_count mcr mfr + 1) * mcr) = 0 →
      2 ≤ files.length ∧ ∃ f, files.getLast? = some f ∧ f.chunks = []) ∧
    (l ≠ [] → l.length % ((max_chunk_count mcr mfr + 1) * mcr) ≠ 0 →
      ∀ f ∈ files, f.chunks ≠ []) ∧
    (∀ rg ∈ (allRowGroups files).dropLast, chunkRows rg = mcr) := by
  obtain ⟨hbc, hbt, harr, hcnt, hcur, hclen, hcch, hsz, hcontent, hseq, htot⟩ :=
    loopInv_loopState mcr (max_chunk_count mcr mfr) hm l
  rw [write_sized_ok mcr mfr l files h]
  have hsplit : l.length % ((max_chunk_count mcr mfr + 1) * mcr) =
      l.length % mcr + mcr * (l.length / mcr % (max_chunk_count mcr mfr + 1)) := by
    rw [Nat.mul_comm]
    exact Nat.mod_mul
  refine ⟨?_, ?_, ?_⟩
  · intro hne hmod
    have hmod2 := hmod
    rw [hsplit] at hmod2
    obtain ⟨hz1, hz2⟩ := Nat.add_eq_zero.mp hmod2
    have hz3 : l.length / mcr % (max_chunk_count mcr mfr + 1) = 0 := by
      rcases Nat.mul_eq_zero.mp hz2 with h' | h'
      · omega
      · exact h'
    have harr0 : (loopState mcr (max_chunk_count mcr mfr) l).array_length = 0 := by
      rw [harr, hz1]
    have hcur0 : (loopState mcr (max_chunk_count mcr mfr) l).current_chunks = [] :=
      List.length_eq_zero.mp (by rw [hcur, hcnt, hz3])
    rw [finishWrite_zero _ harr0, hcur0]
    constructor
    · have hpos : 0 < l.length := List.length_pos.mpr hne
      have hdvd : (max_chunk_count mcr mfr + 1) * mcr ∣ l.length :=
        Nat.dvd_of_mod_eq_zero hmod
      have hge : (max_chunk_count mcr mfr + 1) * mcr ≤ l.length := Nat.le_of_dvd hpos hdvd
      have hge2 : max_chunk_count mcr mfr + 1 ≤ l.length / mcr :=
        (Nat.le_div_iff_mul_le hm).mpr hge
      have hge3 : 1 ≤ l.length / mcr / (max_chunk_count mcr mfr + 1) :=
        (Nat.one_le_div_iff (Nat.succ_pos _)).mpr hge2
      simp only [List.length_append, List.length_cons, List.length_nil]
      omega
    · exact ⟨_, List.getLast?_concat _, rfl⟩
  · intro hne hmodne
    rcases Nat.eq_zero_or_pos (loopState mcr (max_chunk_count mcr mfr) l).array_length
      with h0 | h0
    · rw [finishWrite_zero _ h0]
      intro f hf
      rcases List.mem_append.mp hf with hf | hf
      · have hlen := hcch f hf
        intro hcontra
        rw [hcontra] at hlen
        simp at hlen
      · rcases List.mem_singleton.mp hf with rfl
        have hz1 : l.length % mcr = 0 := by omega
        have hz3 : l.length / mcr % (max_chunk_count mcr mfr + 1) ≠ 0 := by
          intro hz
          apply hmodne
          rw [hsplit, hz1, hz]
          simp
        intro hcontra
        apply hz3
        have hlen0 : (loopState mcr (max_chunk_count mcr mfr) l).current_chunks.length = 0 := by
          rw [show (loopState mcr (max_chunk_count mcr mfr) l).current_chunks = []
            from hcontra]
          rfl
        rw [hcur, hcnt] at hlen0
        exact hlen0
    · rw [finishWrite_pos _ h0]
      intro f hf
      rcases List.mem_append.mp hf with hf | hf
      · have hlen := hcch f hf
        intro hcontra
        rw [hcontra] at hlen
        simp at hlen
      · rcases List.mem_singleton.mp hf with rfl
        simp
  · rcases Nat.eq_zero_or_pos (loopState mcr (max_chunk_count mcr mfr) l).array_length
      with h0 | h0
    · rw [finishWrite_zero _ h0, allRowGroups_closed_concat]
      intro rg hrg
      exact (hsz rg ((List.dropLast_sublist _).subset hrg)).1
    · rw [finishWrite_pos _ h0, allRowGroups_closed_concat]
      rw [← List.append_assoc, List.dropLast_concat]
      intro rg hrg
      exact (hsz rg hrg).1

theorem C10_trailing_empty_file_witness :
    2 ≤ ([(⟨1, [⟨[0, 1], [1, 2]⟩, ⟨[0, 1], [3, 4]⟩, ⟨[0, 1], [5, 6]⟩]⟩ : FileOut),
          ⟨2, []⟩]).length ∧
    ∃ f, ([(⟨1, [⟨[0, 1], [1, 2]⟩, ⟨[0, 1], [3, 4]⟩, ⟨[0, 1], [5, 6]⟩]⟩ : FileOut),
          ⟨2, []⟩]).getLast? = some f ∧ f.chunks = [] :=
  (C10_trailing_empty_file 2 4 (by decide) scenario_six
    [⟨1, [⟨[0, 1], [1, 2]⟩, ⟨[0, 1], [3, 4]⟩, ⟨[0, 1], [5, 6]⟩]⟩, ⟨2, []⟩] rfl).1
    (by decide) (by decide)
